import Mathlib

/-!
Verification of otomata_worker against its specification.

Shallow embedding of the Python source: the relational store becomes
explicit lists of rows, wall-clock instants become natural numbers
(seconds), and each manager method becomes a pure function from the old
store to the new store.  Sources embedded here:

* `task_manager.py`   — `TaskManager.claim / complete / fail`
* `chat_manager.py`   — `ChatManager.add_message`
* `rate_limiter.py`   — `DBRateLimiter.can_request / record_request`
* `secrets.py`        — `SecretsService.encrypt / decrypt / get / get_for_task`
* `worker.py`         — `Worker._execute_chat_agent`
* `executors/agent.py`— `execute_agent` stream consumption
* `server.py`         — the `POST /chats/{chat_id}/messages` handler
-/

namespace Otomata

/-- `models.TaskStatus`: the four task lifecycle states. -/
inductive TaskStatus
  | pending
  | running
  | completed
  | failed
deriving DecidableEq, Repr

/-- A row of the `tasks` table (`models.Task`).  JSON payloads (`params`,
`result`) and free-form text are kept as opaque strings; instants are
seconds as naturals. -/
structure Task where
  id : Nat
  task_type : String
  status : TaskStatus
  script_path : Option String := none
  params : Option String := none
  prompt : Option String := none
  session_id : Option String := none
  workspace : Option String := none
  chat_id : Option Nat := none
  claimed_by : Option String := none
  started_at : Option Nat := none
  completed_at : Option Nat := none
  error : Option String := none
  result : Option String := none
  created_at : Nat := 0
deriving DecidableEq, Repr

/-- Auxiliary for `selectPending`: scan for the row with the smallest
`created_at`, keeping the earlier row on ties (one linearisation of
SQL's unspecified tie order). -/
def minPendingAux : Task → List Task → Task
  | b, [] => b
  | b, t :: ts =>
      if t.created_at < b.created_at then minPendingAux t ts else minPendingAux b ts

/-- The row selected by `task_manager.py:66-73`:
`SELECT id FROM tasks WHERE status = 'pending' ORDER BY created_at ASC
LIMIT 1` — a pending row of minimal `created_at`, or none. -/
def selectPending (db : List Task) : Option Task :=
  match db.filter (fun t => decide (t.status = TaskStatus.pending)) with
  | [] => none
  | t :: ts => some (minPendingAux t ts)

/-- `TaskManager.claim` (`task_manager.py:52-86`): pick the FIFO pending
row, set status to running, stamp `claimed_by` and `started_at`, and
return the claimed row together with the updated store. -/
def TaskManager.claim (worker_id : String) (now : Nat) (db : List Task) :
    Option Task × List Task :=
  match selectPending db with
  | none => (none, db)
  | some t =>
      let t' := { t with status := TaskStatus.running,
                         claimed_by := some worker_id,
                         started_at := some now }
      (some t', db.map (fun u => if u.id = t.id then t' else u))

/-- `TaskManager.complete` (`task_manager.py:88-100`): primary-key lookup
(`session.query(Task).get(task_id)`); when the row exists, set status,
`completed_at` and `result` unconditionally; a missing id is a no-op. -/
def TaskManager.complete (task_id : Nat) (result : Option String) (now : Nat)
    (db : List Task) : List Task :=
  db.map (fun t =>
    if t.id = task_id then
      { t with status := TaskStatus.completed, completed_at := some now, result := result }
    else t)

/-- `TaskManager.fail` (`task_manager.py:102-114`): like `complete`, but sets
status to failed and writes `error`; a missing id is a no-op. -/
def TaskManager.fail (task_id : Nat) (error : String) (now : Nat)
    (db : List Task) : List Task :=
  db.map (fun t =>
    if t.id = task_id then
      { t with status := TaskStatus.failed, completed_at := some now, error := some error }
    else t)

lemma minPendingAux_mem (b : Task) (ts : List Task) :
    minPendingAux b ts = b ∨ minPendingAux b ts ∈ ts := by
  induction ts generalizing b with
  | nil => simp [minPendingAux]
  | cons t ts ih =>
      simp only [minPendingAux]
      by_cases h : t.created_at < b.created_at
      · simp only [h, if_pos]
        rcases ih t with h' | h'
        · right; simp [h']
        · right; simp [h']
      · simp only [h, if_neg, not_false_iff]
        rcases ih b with h' | h'
        · left; exact h'
        · right; simp [h']

lemma minPendingAux_le (b : Task) (ts : List Task) :
    (minPendingAux b ts).created_at ≤ b.created_at ∧
      ∀ u ∈ ts, (minPendingAux b ts).created_at ≤ u.created_at := by
  induction ts generalizing b with
  | nil => simp [minPendingAux]
  | cons t ts ih =>
      simp only [minPendingAux]
      by_cases h : t.created_at < b.created_at
      · simp only [h, if_pos]
        refine ⟨le_of_lt (lt_of_le_of_lt (ih t).1 h), ?_⟩
        intro u hu
        rcases List.mem_cons.mp hu with heq | hu
        · rw [heq]; exact (ih t).1
        · exact (ih t).2 u hu
      · simp only [h, if_neg, not_false_iff]
        refine ⟨(ih b).1, ?_⟩
        intro u hu
        rcases List.mem_cons.mp hu with heq | hu
        · rw [heq]; exact le_trans (ih b).1 (le_of_not_lt h)
        · exact (ih b).2 u hu

lemma selectPending_some {db : List Task} {t : Task}
    (h : selectPending db = some t) :
    t ∈ db ∧ t.status = TaskStatus.pending ∧
      ∀ u ∈ db, u.status = TaskStatus.pending → t.created_at ≤ u.created_at := by
  unfold selectPending at h
  rcases hf : db.filter (fun t => decide (t.status = TaskStatus.pending)) with _ | ⟨b, ts⟩
  · rw [hf] at h; exact absurd h (by simp)
  · rw [hf] at h
    have ht : t = minPendingAux b ts := by
      simpa using h.symm
    have hmem : t ∈ b :: ts := by
      rcases minPendingAux_mem b ts with h' | h'
      · rw [ht, h']; exact List.mem_cons_self _ _
      · rw [ht]; exact List.mem_cons_of_mem _ h'
    have hmem' : t ∈ db.filter (fun t => decide (t.status = TaskStatus.pending)) := by
      rw [hf]; exact hmem
    have hmemdb := List.mem_filter.mp hmem'
    refine ⟨hmemdb.1, by simpa using hmemdb.2, ?_⟩
    intro u hu hup
    have hu' : u ∈ b :: ts := by
      rw [← hf]; exact List.mem_filter.mpr ⟨hu, by simpa using hup⟩
    rcases List.mem_cons.mp hu' with rfl | hu'
    · rw [ht]; exact (minPendingAux_le u ts).1
    · rw [ht]; exact (minPendingAux_le b ts).2 u hu'

lemma selectPending_eq_none {db : List Task} :
    selectPending db = none ↔
      db.filter (fun t => decide (t.status = TaskStatus.pending)) = [] := by
  unfold selectPending
  cases hf : db.filter (fun t => decide (t.status = TaskStatus.pending)) with
  | nil => simp
  | cons b ts => simp

lemma selectPending_none {db : List Task} :
    selectPending db = none ↔ ∀ t ∈ db, t.status ≠ TaskStatus.pending := by
  rw [selectPending_eq_none, List.filter_eq_nil_iff]
  constructor
  · intro h t ht hp
    exact absurd (by simpa using hp) (by simpa using h t ht)
  · intro h t ht
    simpa using h t ht

/-- C1: `TaskManager.claim(worker_id)` returns at most one currently-pending
task (the `Option` result), transitions it to running, stamps `started_at`
with the current time and `claimed_by` with `worker_id`, selects a pending
task of minimal `created_at` (FIFO), and returns none exactly when no
pending task exists. -/
theorem claim_fifo (worker_id : String) (now : Nat) (db : List Task) :
    (∀ t db', TaskManager.claim worker_id now db = (some t, db') →
        t.status = TaskStatus.running ∧ t.claimed_by = some worker_id ∧
        t.started_at = some now ∧
        (∃ t0 ∈ db, t0.status = TaskStatus.pending ∧ t0.id = t.id ∧
            t0.created_at = t.created_at ∧
            ∀ u ∈ db, u.status = TaskStatus.pending → t0.created_at ≤ u.created_at) ∧
        db' = db.map (fun u => if u.id = t.id then t else u)) ∧
    ((TaskManager.claim worker_id now db).1 = none ↔
        ∀ t ∈ db, t.status ≠ TaskStatus.pending) := by
  constructor
  · intro t db' h
    unfold TaskManager.claim at h
    rcases hs : selectPending db with _ | t0
    · rw [hs] at h; exact absurd h (by simp)
    · rw [hs] at h
      simp only [Prod.mk.injEq, Option.some.injEq] at h
      obtain ⟨ht, hdb⟩ := h
      obtain ⟨hmem, hpend, hmin⟩ := selectPending_some hs
      subst ht
      refine ⟨rfl, rfl, rfl, ⟨t0, hmem, hpend, rfl, rfl, hmin⟩, hdb.symm⟩
  · rw [← selectPending_none]
    unfold TaskManager.claim
    cases hs : selectPending db with
    | none => simp
    | some t0 => simp

/-- Witness for C1 at a concrete store: two pending tasks, the older one
(created 3) is claimed and stamped. -/
theorem claim_fifo_witness :
    (TaskManager.claim "w1" 7
        [{ id := 1, task_type := "script", status := TaskStatus.pending, created_at := 5 },
         { id := 2, task_type := "agent", status := TaskStatus.pending, created_at := 3 }]).1
      = some { id := 2, task_type := "agent", status := TaskStatus.running,
               claimed_by := some "w1", started_at := some 7, created_at := 3 } ∧
    ({ id := 2, task_type := "agent", status := TaskStatus.running,
       claimed_by := some "w1", started_at := some 7,
       created_at := 3 } : Task).status = TaskStatus.running := by
  have h := (claim_fifo "w1" 7
      [{ id := 1, task_type := "script", status := TaskStatus.pending, created_at := 5 },
       { id := 2, task_type := "agent", status := TaskStatus.pending, created_at := 3 }]).1
      { id := 2, task_type := "agent", status := TaskStatus.running,
        claimed_by := some "w1", started_at := some 7, created_at := 3 }
      _ rfl
  exact ⟨by decide, h.1⟩

/-! ### C3 / C9: re-application behaviour of `complete` and `fail` -/

/-- Demo store for C3: one task, id 1. -/
def c3db0 : List Task :=
  [{ id := 1, task_type := "script", status := TaskStatus.pending, created_at := 0 }]

/-- C3 counterexample: `complete(1, "r")` followed by `fail(1, "boom")` flips
the stored status from completed to failed, so a subsequent `fail` on a
terminal task does not leave the status unchanged as the claim states. -/
theorem complete_then_fail_flips_cex :
    ((TaskManager.complete 1 (some "r") 5 c3db0).map Task.status
        = [TaskStatus.completed]) ∧
    ((TaskManager.fail 1 "boom" 6 (TaskManager.complete 1 (some "r") 5 c3db0)).map Task.status
        = [TaskStatus.failed]) ∧
    TaskStatus.failed ≠ TaskStatus.completed := by decide

/-- C3 (amended): `complete` and `fail` re-apply unconditionally.  Re-applying
the same call with the same payload is a no-op on status and payload (only
`completed_at` is restamped), but `fail` after `complete` flips the status to
failed and writes `error`, while the stored `result` is retained. -/
theorem complete_fail_overwrite (db : List Task) (tid : Nat) (r : Option String)
    (e : String) (t1 t2 : Nat) :
    TaskManager.complete tid r t2 (TaskManager.complete tid r t1 db)
        = TaskManager.complete tid r t2 db ∧
    TaskManager.fail tid e t2 (TaskManager.fail tid e t1 db)
        = TaskManager.fail tid e t2 db ∧
    ∀ t ∈ TaskManager.fail tid e t2 (TaskManager.complete tid r t1 db),
      t.id = tid → t.status = TaskStatus.failed ∧ t.result = r ∧ t.error = some e := by
  refine ⟨?_, ?_, ?_⟩
  · simp only [TaskManager.complete, List.map_map]
    congr 1
    funext t
    by_cases h : t.id = tid <;> simp [h]
  · simp only [TaskManager.fail, List.map_map]
    congr 1
    funext t
    by_cases h : t.id = tid <;> simp [h]
  · intro t ht hid
    simp only [TaskManager.fail, TaskManager.complete, List.map_map] at ht
    obtain ⟨u, _, rfl⟩ := List.mem_map.mp ht
    by_cases h : u.id = tid
    · simp [h]
    · set_option linter.unnecessarySimpa false in
      exact absurd (by simpa [Function.comp, h] using hid) h

/-- Witness for C3's amended theorem at a concrete store. -/
theorem complete_fail_overwrite_witness :
    TaskManager.fail 1 "boom" 6 (TaskManager.fail 1 "boom" 5 c3db0)
        = TaskManager.fail 1 "boom" 6 c3db0 ∧
    ({ id := 1, task_type := "script", status := TaskStatus.failed,
       completed_at := some 6, result := some "r", error := some "boom",
       created_at := 0 } : Task).status = TaskStatus.failed := by
  have h := complete_fail_overwrite c3db0 1 (some "r") "boom" 5 6
  refine ⟨h.2.1, ?_⟩
  exact (h.2.2 _ (by decide) (by decide)).1

/-- C9: for a `task_id` with no matching row, the primary-key lookup in
`complete`/`fail` finds nothing (`if task:` guard), so both calls return
leaving every stored task unchanged. -/
theorem complete_fail_missing_noop (db : List Task) (tid : Nat) (r : Option String)
    (e : String) (t1 : Nat) (h : ∀ t ∈ db, t.id ≠ tid) :
    TaskManager.complete tid r t1 db = db ∧ TaskManager.fail tid e t1 db = db := by
  constructor
  · unfold TaskManager.complete
    induction db with
    | nil => rfl
    | cons t ts ih =>
        have ht : t.id ≠ tid := h t (List.mem_cons_self _ _)
        simp only [List.map_cons, ht, if_neg, not_false_iff]
        rw [ih (fun u hu => h u (List.mem_cons_of_mem _ hu))]
  · unfold TaskManager.fail
    induction db with
    | nil => rfl
    | cons t ts ih =>
        have ht : t.id ≠ tid := h t (List.mem_cons_self _ _)
        simp only [List.map_cons, ht, if_neg, not_false_iff]
        rw [ih (fun u hu => h u (List.mem_cons_of_mem _ hu))]

/-- Demo store for C9: one task with id 1; task id 99 is absent. -/
def c9db : List Task :=
  [{ id := 1, task_type := "agent", status := TaskStatus.running, created_at := 2 }]

/-- Witness for C9: completing or failing the absent task id 99 changes
nothing. -/
theorem complete_fail_missing_noop_witness :
    TaskManager.complete 99 (some "r") 5 c9db = c9db ∧
    TaskManager.fail 99 "e" 5 c9db = c9db :=
  complete_fail_missing_noop c9db 99 (some "r") "e" 5 (by decide)

/-! ### C4: chat messages and sequence assignment -/

/-- `models.MessageRole`: the two message roles. -/
inductive MessageRole
  | user
  | assistant
deriving DecidableEq, Repr

/-- A row of the `messages` table (`models.Message`). -/
structure Message where
  id : Nat
  chat_id : Nat
  role : MessageRole
  content : String
  sequence : Nat
  tokens_input : Nat := 0
  tokens_output : Nat := 0
deriving DecidableEq, Repr

/-- `chat_manager.py:222-225`: `max(Message.sequence)` over the chat's
messages, `or 0` turning SQL NULL (empty chat) into 0. -/
def maxSeq (chat_id : Nat) (db : List Message) : Nat :=
  ((db.filter (fun m => m.chat_id == chat_id)).map Message.sequence).foldl max 0

/-- `ChatManager.add_message` (`chat_manager.py:207-237`): append a message
with `sequence = max(existing) + 1`; the id models the autoincrement key. -/
def ChatManager.add_message (chat_id : Nat) (role : MessageRole) (content : String)
    (tokens_input tokens_output : Nat) (db : List Message) : List Message :=
  db ++ [{ id := db.length + 1, chat_id := chat_id, role := role, content := content,
           sequence := maxSeq chat_id db + 1,
           tokens_input := tokens_input, tokens_output := tokens_output }]

/-- One call of a sequential `add_message` trace. -/
structure AddCall where
  chat_id : Nat
  role : MessageRole
  content : String
  tokens_input : Nat := 0
  tokens_output : Nat := 0
deriving DecidableEq, Repr

/-- Run a sequence of `add_message` calls against a message store. -/
def runAdds (db : List Message) : List AddCall → List Message
  | [] => db
  | c :: cs =>
      runAdds (ChatManager.add_message c.chat_id c.role c.content
        c.tokens_input c.tokens_output db) cs

lemma foldl_max_range (k : Nat) : (List.range' 1 k).foldl max 0 = k := by
  induction k with
  | zero => rfl
  | succ k ih =>
      rw [List.range'_concat, List.foldl_append]
      simp only [List.foldl_cons, List.foldl_nil, ih]
      omega

lemma runAdds_seq (calls : List AddCall) (db : List Message)
    (h : ∀ c, ((db.filter (fun m => m.chat_id == c)).map Message.sequence)
        = List.range' 1 ((db.filter (fun m => m.chat_id == c)).length)) :
    ∀ c, (((runAdds db calls).filter (fun m => m.chat_id == c)).map Message.sequence)
        = List.range' 1 (((db.filter (fun m => m.chat_id == c)).length)
            + calls.countP (fun call => call.chat_id == c)) := by
  induction calls generalizing db with
  | nil =>
      intro c
      simpa [runAdds] using h c
  | cons call cs ih =>
      intro c
      have hfilter : ∀ c', ((ChatManager.add_message call.chat_id call.role call.content
            call.tokens_input call.tokens_output db).filter (fun m => m.chat_id == c'))
          = db.filter (fun m => m.chat_id == c') ++
            (if call.chat_id == c' then
              [{ id := db.length + 1, chat_id := call.chat_id, role := call.role,
                 content := call.content, sequence := maxSeq call.chat_id db + 1,
                 tokens_input := call.tokens_input, tokens_output := call.tokens_output }]
             else []) := by
        intro c'
        unfold ChatManager.add_message
        rw [List.filter_append]
        congr 1
        by_cases hc : call.chat_id == c' <;> simp [hc]
      have hmax : maxSeq call.chat_id db
          = (db.filter (fun m => m.chat_id == call.chat_id)).length := by
        unfold maxSeq
        rw [h call.chat_id, foldl_max_range]
      have hinv : ∀ c', (((ChatManager.add_message call.chat_id call.role call.content
            call.tokens_input call.tokens_output db).filter
              (fun m => m.chat_id == c')).map Message.sequence)
          = List.range' 1 (((ChatManager.add_message call.chat_id call.role call.content
              call.tokens_input call.tokens_output db).filter
                (fun m => m.chat_id == c')).length) := by
        intro c'
        rw [hfilter c']
        by_cases hc : call.chat_id == c'
        · have hcc : call.chat_id = c' := by simpa using hc
          simp only [hc, if_pos, List.map_append, List.length_append, List.map_cons,
            List.map_nil, List.length_cons, List.length_nil]
          rw [h c', hmax, hcc]
          rw [show ((db.filter (fun m => m.chat_id == c')).length + (0 + 1))
              = (db.filter (fun m => m.chat_id == c')).length + 1 by omega]
          rw [List.range'_concat]
          simp [Nat.add_comm]
        · simp only [hc, if_neg, not_false_iff, List.append_nil, Bool.false_eq_true]
          exact h c'
      have := ih (ChatManager.add_message call.chat_id call.role call.content
        call.tokens_input call.tokens_output db) hinv c
      rw [show runAdds db (call :: cs)
          = runAdds (ChatManager.add_message call.chat_id call.role call.content
              call.tokens_input call.tokens_output db) cs from rfl]
      rw [this, hfilter c, List.countP_cons]
      by_cases hc : call.chat_id == c
      · simp only [hc, if_pos, List.length_append, List.length_cons, List.length_nil]
        congr 1
        omega
      · simp [hc]

/-- C4: for every chat, after any sequence of sequential `add_message` calls
starting from an empty store, the message sequence numbers of that chat are
exactly `1, 2, …, n` (no gaps, no duplicates) in append order, where `n` is
the number of calls for that chat; each call assigns
`sequence = max(existing) + 1`, starting at 1 for an empty chat. -/
theorem add_message_sequences (calls : List AddCall) (c : Nat) :
    (((runAdds [] calls).filter (fun m => m.chat_id == c)).map Message.sequence)
        = List.range' 1 (calls.countP (fun call => call.chat_id == c)) := by
  have h := runAdds_seq calls [] (by intro c'; simp) c
  simpa using h

/-! ### C5 / C6: the DB-backed rate limiter (`rate_limiter.py`) -/

/-- An `{hourly, daily}` limit pair. -/
structure LimitPair where
  hourly : Nat
  daily : Nat
deriving DecidableEq, Repr

/-- The limiter's limits mapping: explicit entries plus the mandatory
`default` fallback (`rate_limiter.py:31-33`). -/
structure LimitsMap where
  entries : List (String × LimitPair)
  dflt : LimitPair
deriving DecidableEq, Repr

/-- `DBRateLimiter._get_limits`: `self.limits.get(action_type, self.limits['default'])`. -/
def LimitsMap.get_limits (lm : LimitsMap) (action_type : String) : LimitPair :=
  ((lm.entries.find? (fun p => p.1 == action_type)).map Prod.snd).getD lm.dflt

/-- `DEFAULT_LIMITS` (`rate_limiter.py:11-21`). -/
def DEFAULT_LIMITS : LimitsMap :=
  { entries := [("profile_visit", ⟨30, 150⟩), ("search", ⟨20, 100⟩),
                ("connection_request", ⟨10, 50⟩), ("message", ⟨15, 75⟩),
                ("kaspr_lookup", ⟨50, 500⟩)],
    dflt := ⟨60, 300⟩ }

/-- A row of the `rate_limits` table (`models.RateLimit`); timestamps are
seconds as naturals. -/
structure RateLimitRow where
  identity_id : Nat
  action_type : String
  date : Nat
  hourly_timestamps : List Nat
  daily_count : Nat
  last_request_at : Option Nat := none
deriving DecidableEq, Repr

/-- The rate-limit store: the `rate_limits` table. -/
abbrev RateStore := List RateLimitRow

/-- The calendar day of an instant (`date.today()` with one model clock). -/
def dayOf (now : Nat) : Nat := now / 86400

/-- Key match for `_get_or_create_record`'s filter. -/
def rowKeyMatches (i : Nat) (a : String) (d : Nat) (r : RateLimitRow) : Bool :=
  r.identity_id == i && r.action_type == a && r.date == d

/-- `DBRateLimiter._get_or_create_record` (`rate_limiter.py:35-56`): fetch
today's row for (identity, action), creating an empty one when absent. -/
def get_or_create_record (i : Nat) (a : String) (now : Nat) (store : RateStore) :
    RateLimitRow × RateStore :=
  match store.find? (rowKeyMatches i a (dayOf now)) with
  | some r => (r, store)
  | none =>
      let r : RateLimitRow := { identity_id := i, action_type := a, date := dayOf now,
                                hourly_timestamps := [], daily_count := 0 }
      (r, store ++ [r])

/-- `DBRateLimiter._prune_hourly_timestamps` (`rate_limiter.py:58-61`): keep
instants strictly newer than one hour ago; `ts > now - 3600` is rendered
truncation-free as `ts + 3600 > now`. -/
def prune_hourly_timestamps (now : Nat) (ts : List Nat) : List Nat :=
  ts.filter (fun t => t + 3600 > now)

/-- `DBRateLimiter.can_request` (`rate_limiter.py:63-101`).  The result is
`none` on the one path where Python would raise (indexing
`hourly_timestamps[0]` with an hourly limit of 0 and no fresh timestamps);
otherwise `some ((ok, wait_seconds), store)` — the store can gain the
fetched-or-created row.  The pruned list is local: it is not written back. -/
def can_request (lm : LimitsMap) (i : Nat) (a : String) (now : Nat)
    (store : RateStore) : Option ((Bool × Nat) × RateStore) :=
  if (lm.get_limits a).daily ≤ (get_or_create_record i a now store).1.daily_count then
    some ((false, (dayOf now + 1) * 86400 - now), (get_or_create_record i a now store).2)
  else if (lm.get_limits a).hourly ≤
      (prune_hourly_timestamps now
        (get_or_create_record i a now store).1.hourly_timestamps).length then
    match prune_hourly_timestamps now
        (get_or_create_record i a now store).1.hourly_timestamps with
    | [] => none
    | oldest :: _ =>
        some ((false, oldest + 3600 - now), (get_or_create_record i a now store).2)
  else
    some ((true, 0), (get_or_create_record i a now store).2)

/-- Replace the first row matching the key, as mutating the fetched ORM row
does. -/
def updateRow (i : Nat) (a : String) (d : Nat) (f : RateLimitRow → RateLimitRow) :
    RateStore → RateStore
  | [] => []
  | r :: rs =>
      if rowKeyMatches i a d r then f r :: rs else r :: updateRow i a d f rs

/-- `DBRateLimiter.record_request` (`rate_limiter.py:103-117`): fetch or
create today's row, then write back the pruned list with `now` appended,
increment `daily_count` and stamp `last_request_at`. -/
def record_request (i : Nat) (a : String) (now : Nat) (store : RateStore) :
    RateStore :=
  updateRow i a (dayOf now)
    (fun r => { r with
        hourly_timestamps := prune_hourly_timestamps now r.hourly_timestamps ++ [now],
        daily_count := r.daily_count + 1,
        last_request_at := some now })
    (get_or_create_record i a now store).2

/-- Demo limits for the C5 counterexample: custom limits with hourly 1 for
action `visit` (`DBRateLimiter(limits)` accepts custom limits). -/
def lmOne : LimitsMap := { entries := [("visit", ⟨1, 100⟩)], dflt := ⟨60, 300⟩ }

/-- C5 counterexample: three bare `record_request` calls within the same hour
leave a stored `hourly_timestamps` of length 3, exceeding `hourly + 1 = 2`:
`record_request` never consults the limits, so the bound fails for
unrestricted call sequences. -/
theorem hourly_length_unbounded_cex :
    ∃ r ∈ record_request 7 "visit" 0
        (record_request 7 "visit" 0 (record_request 7 "visit" 0 ([] : RateStore))),
      (lmOne.get_limits r.action_type).hourly + 1 < r.hourly_timestamps.length := by
  decide

/-- One step of the disciplined client protocol: a bare `can_request`, or a
`can_request` immediately followed — at the same instant — by
`record_request` when (and only when) the check returned ok. -/
inductive RateOp
  | check (i : Nat) (a : String) (now : Nat)
  | checkedUse (i : Nat) (a : String) (now : Nat)
deriving DecidableEq, Repr

/-- Run a disciplined trace of limiter calls; `none` when a `can_request`
hits the raising path. -/
def runRate (lm : LimitsMap) : RateStore → List RateOp → Option RateStore
  | st, [] => some st
  | st, RateOp.check i a now :: ops =>
      match can_request lm i a now st with
      | none => none
      | some (_, st') => runRate lm st' ops
  | st, RateOp.checkedUse i a now :: ops =>
      match can_request lm i a now st with
      | none => none
      | some ((ok, _), st') =>
          runRate lm (if ok then record_request i a now st' else st') ops

lemma find?_append_none {α : Type} {p : α → Bool} {l1 : List α} (l2 : List α)
    (h : l1.find? p = none) : (l1 ++ l2).find? p = l2.find? p := by
  induction l1 with
  | nil => rfl
  | cons x xs ih =>
      by_cases hx : p x
      · rw [List.find?_cons_of_pos _ hx] at h; exact absurd h (by simp)
      · rw [List.find?_cons_of_neg _ hx] at h
        rw [List.cons_append, List.find?_cons_of_neg _ hx]
        exact ih h

lemma get_or_create_find (i : Nat) (a : String) (now : Nat) (st : RateStore) :
    (get_or_create_record i a now st).2.find? (rowKeyMatches i a (dayOf now))
      = some (get_or_create_record i a now st).1 := by
  unfold get_or_create_record
  cases hf : st.find? (rowKeyMatches i a (dayOf now)) with
  | some r => simp [hf]
  | none =>
      simp only [hf]
      rw [find?_append_none _ hf]
      rw [List.find?_cons_of_pos]
      simp [rowKeyMatches]

lemma get_or_create_mem {i : Nat} {a : String} {now : Nat} {st : RateStore}
    {r : RateLimitRow} (hr : r ∈ (get_or_create_record i a now st).2) :
    r ∈ st ∨ r.hourly_timestamps = [] := by
  unfold get_or_create_record at hr
  cases hf : st.find? (rowKeyMatches i a (dayOf now)) with
  | some r0 => rw [hf] at hr; exact Or.inl hr
  | none =>
      rw [hf] at hr
      rcases List.mem_append.mp hr with h | h
      · exact Or.inl h
      · right
        have : r = { identity_id := i, action_type := a, date := dayOf now,
                     hourly_timestamps := [], daily_count := 0 } := by simpa using h
        rw [this]

lemma updateRow_mem {i : Nat} {a : String} {d : Nat} {f : RateLimitRow → RateLimitRow}
    {st : RateStore} {r : RateLimitRow} (hr : r ∈ updateRow i a d f st) :
    r ∈ st ∨ ∃ r0, st.find? (rowKeyMatches i a d) = some r0 ∧ r = f r0 := by
  induction st with
  | nil => exact absurd hr (by simp [updateRow])
  | cons s ss ih =>
      by_cases hs : rowKeyMatches i a d s
      · rw [show updateRow i a d f (s :: ss) = f s :: ss by simp [updateRow, hs]] at hr
        rcases List.mem_cons.mp hr with heq | hmem
        · exact Or.inr ⟨s, List.find?_cons_of_pos _ hs, heq⟩
        · exact Or.inl (List.mem_cons_of_mem _ hmem)
      · rw [show updateRow i a d f (s :: ss) = s :: updateRow i a d f ss by
            simp [updateRow, hs]] at hr
        rcases List.mem_cons.mp hr with heq | hmem
        · rw [heq]; exact Or.inl (List.mem_cons_self _ _)
        · rcases ih hmem with h' | ⟨r0, hf, hr0⟩
          · exact Or.inl (List.mem_cons_of_mem _ h')
          · exact Or.inr ⟨r0, by rw [List.find?_cons_of_neg _ hs]; exact hf, hr0⟩

/-- Every `some` result of `can_request` carries the fetched-or-created
store. -/
lemma can_request_store {lm : LimitsMap} {i : Nat} {a : String} {now : Nat}
    {st : RateStore} {x : Bool × Nat} {st' : RateStore}
    (h : can_request lm i a now st = some (x, st')) :
    st' = (get_or_create_record i a now st).2 := by
  unfold can_request at h
  by_cases hd : (lm.get_limits a).daily ≤ (get_or_create_record i a now st).1.daily_count
  · simp only [hd, if_pos] at h
    exact (congrArg Prod.snd (Option.some.inj h)).symm
  · simp only [hd, if_neg, not_false_iff] at h
    by_cases hh : (lm.get_limits a).hourly ≤
        (prune_hourly_timestamps now
          (get_or_create_record i a now st).1.hourly_timestamps).length
    · simp only [hh, if_pos] at h
      cases hp : prune_hourly_timestamps now
          (get_or_create_record i a now st).1.hourly_timestamps with
      | nil => rw [hp] at h; exact absurd h (by simp)
      | cons o rest =>
          rw [hp] at h
          exact (congrArg Prod.snd (Option.some.inj h)).symm
    · simp only [hh, if_neg, not_false_iff] at h
      exact (congrArg Prod.snd (Option.some.inj h)).symm

/-- When `can_request` answers ok, the fetched row's pruned hourly list is
strictly below the hourly limit. -/
lemma can_request_ok {lm : LimitsMap} {i : Nat} {a : String} {now : Nat}
    {st : RateStore} {w : Nat} {st' : RateStore}
    (h : can_request lm i a now st = some ((true, w), st')) :
    (prune_hourly_timestamps now
        (get_or_create_record i a now st).1.hourly_timestamps).length
      < (lm.get_limits a).hourly := by
  unfold can_request at h
  by_cases hd : (lm.get_limits a).daily ≤ (get_or_create_record i a now st).1.daily_count
  · simp [hd] at h
  · simp only [hd, if_neg, not_false_iff] at h
    by_cases hh : (lm.get_limits a).hourly ≤
        (prune_hourly_timestamps now
          (get_or_create_record i a now st).1.hourly_timestamps).length
    · simp only [hh, if_pos] at h
      cases hp : prune_hourly_timestamps now
          (get_or_create_record i a now st).1.hourly_timestamps with
      | nil => rw [hp] at h; exact absurd h (by simp)
      | cons o rest => rw [hp] at h; simp at h
    · exact lt_of_not_le hh

lemma record_after_ok_inv (lm : LimitsMap) {i : Nat} {a : String} {now w : Nat}
    {st st' : RateStore}
    (h : can_request lm i a now st = some ((true, w), st'))
    (hinv : ∀ r ∈ st', r.hourly_timestamps.length
        ≤ (lm.get_limits r.action_type).hourly + 1) :
    ∀ r ∈ record_request i a now st', r.hourly_timestamps.length
        ≤ (lm.get_limits r.action_type).hourly + 1 := by
  intro r hr
  unfold record_request at hr
  have hst' := can_request_store h
  have hfind : st'.find? (rowKeyMatches i a (dayOf now))
      = some (get_or_create_record i a now st).1 := by
    rw [hst']; exact get_or_create_find i a now st
  have hgo : (get_or_create_record i a now st').2 = st' := by
    unfold get_or_create_record; rw [hfind]
  rw [hgo] at hr
  rcases updateRow_mem hr with hmem | ⟨r0, hf0, hr0⟩
  · exact hinv r hmem
  · have hr0eq : r0 = (get_or_create_record i a now st).1 := by
      rw [hfind] at hf0; exact (Option.some.inj hf0).symm
    have hact : (get_or_create_record i a now st).1.action_type = a := by
      have hm := List.find?_some hfind
      unfold rowKeyMatches at hm
      simp only [Bool.and_eq_true, beq_iff_eq] at hm
      exact hm.1.2
    have hok := can_request_ok h
    rw [hr0, hr0eq]
    show (prune_hourly_timestamps now
        (get_or_create_record i a now st).1.hourly_timestamps ++ [now]).length
      ≤ (lm.get_limits (get_or_create_record i a now st).1.action_type).hourly + 1
    rw [hact, List.length_append]
    simp only [List.length_cons, List.length_nil]
    omega

lemma runRate_inv (lm : LimitsMap) (ops : List RateOp) :
    ∀ st st', (∀ r ∈ st, r.hourly_timestamps.length
        ≤ (lm.get_limits r.action_type).hourly + 1) →
      runRate lm st ops = some st' →
      ∀ r ∈ st', r.hourly_timestamps.length
        ≤ (lm.get_limits r.action_type).hourly + 1 := by
  induction ops with
  | nil =>
      intro st st' hinv h
      have : st = st' := by simpa [runRate] using h
      exact this ▸ hinv
  | cons op ops ih =>
      intro st st' hinv h
      cases op with
      | check i a now =>
          simp only [runRate] at h
          cases hc : can_request lm i a now st with
          | none => rw [hc] at h; exact absurd h (by simp)
          | some p =>
              obtain ⟨x, st1⟩ := p
              rw [hc] at h
              have hinv1 : ∀ r ∈ st1, r.hourly_timestamps.length
                  ≤ (lm.get_limits r.action_type).hourly + 1 := by
                intro r hrm
                rw [can_request_store hc] at hrm
                rcases get_or_create_mem hrm with hm | hts
                · exact hinv r hm
                · rw [hts]; simp
              exact ih st1 st' hinv1 h
      | checkedUse i a now =>
          simp only [runRate] at h
          cases hc : can_request lm i a now st with
          | none => rw [hc] at h; exact absurd h (by simp)
          | some p =>
              obtain ⟨⟨ok, w⟩, st1⟩ := p
              rw [hc] at h
              have hinv1 : ∀ r ∈ st1, r.hourly_timestamps.length
                  ≤ (lm.get_limits r.action_type).hourly + 1 := by
                intro r hrm
                rw [can_request_store hc] at hrm
                rcases get_or_create_mem hrm with hm | hts
                · exact hinv r hm
                · rw [hts]; simp
              cases ok with
              | false => simp only [if_neg, Bool.false_eq_true, not_false_iff] at h
                         exact ih st1 st' hinv1 h
              | true => simp only [if_pos] at h
                        exact ih _ st' (record_after_ok_inv lm hc hinv1) h

/-- C5 (amended): for every identity and action, after any sequence of
`can_request` and `record_request` calls in which each `record_request` is
immediately preceded — at the same instant — by a `can_request` for the same
identity and action that returned ok (the check-then-record discipline the
spec's callers follow), every stored `hourly_timestamps` list has length at
most `hourly_limit(action) + 1`.  Without that discipline the bound fails
(see the counterexample): `record_request` prunes but never checks limits. -/
theorem hourly_length_invariant (lm : LimitsMap) (ops : List RateOp) (st' : RateStore)
    (h : runRate lm [] ops = some st') :
    ∀ r ∈ st', r.hourly_timestamps.length
      ≤ (lm.get_limits r.action_type).hourly + 1 :=
  runRate_inv lm ops [] st' (by intro r hr; exact absurd hr (by simp)) h

/-- The store a disciplined three-attempt trace ends in, for C5's witness. -/
def c5row : RateLimitRow :=
  { identity_id := 1, action_type := "visit", date := 0, hourly_timestamps := [0],
    daily_count := 1, last_request_at := some 0 }

/-- Witness for C5's amended theorem: a disciplined trace of three
check-then-record attempts against an hourly limit of 1 ends with a single
stored timestamp, within the bound. -/
theorem hourly_length_invariant_witness :
    c5row.hourly_timestamps.length ≤ (lmOne.get_limits "visit").hourly + 1 := by
  have h := hourly_length_invariant lmOne
    [RateOp.checkedUse 1 "visit" 0, RateOp.checkedUse 1 "visit" 0,
     RateOp.checkedUse 1 "visit" 0]
    [c5row] (by decide)
  exact h c5row (by decide)

/-- The single rate-limit row left by `k` disciplined check-then-record
pairs at instant `t`. -/
def scenarioRow (i : Nat) (a : String) (t : Nat) (k : Nat) : RateLimitRow :=
  { identity_id := i, action_type := a, date := dayOf t,
    hourly_timestamps := List.replicate k t, daily_count := k,
    last_request_at := if k = 0 then none else some t }

/-- The store after `k` disciplined pairs at instant `t` from an empty
store. -/
def rateScenarioStore (i : Nat) (a : String) (t : Nat) (k : Nat) : RateStore :=
  if k = 0 then [] else [scenarioRow i a t k]

/-- `n` disciplined check-then-record pairs at instant `t` from an empty
store. -/
def ratePairs (lm : LimitsMap) (i : Nat) (a : String) (t : Nat) (n : Nat) :
    Option RateStore :=
  runRate lm [] (List.replicate n (RateOp.checkedUse i a t))

lemma prune_replicate (t k : Nat) :
    prune_hourly_timestamps t (List.replicate k t) = List.replicate k t := by
  apply List.filter_eq_self.mpr
  intro x hx
  rw [List.eq_of_mem_replicate hx]
  simp

lemma gocr_scenario (i : Nat) (a : String) (t : Nat) (k : Nat) :
    get_or_create_record i a t (rateScenarioStore i a t k)
      = (scenarioRow i a t k, [scenarioRow i a t k]) := by
  cases k with
  | zero => simp [rateScenarioStore, scenarioRow, get_or_create_record]
  | succ m =>
      simp [rateScenarioStore, scenarioRow, get_or_create_record,
        rowKeyMatches, List.find?]

lemma can_scenario (lm : LimitsMap) (i : Nat) (a : String) (t : Nat) (k : Nat)
    (hk : k < (lm.get_limits a).hourly) (hd : k < (lm.get_limits a).daily) :
    can_request lm i a t (rateScenarioStore i a t k)
      = some ((true, 0), [scenarioRow i a t k]) := by
  unfold can_request
  rw [gocr_scenario]
  show (if (lm.get_limits a).daily ≤ (scenarioRow i a t k).daily_count then _
    else if (lm.get_limits a).hourly ≤
        (prune_hourly_timestamps t (scenarioRow i a t k).hourly_timestamps).length then _
    else _) = _
  rw [show (scenarioRow i a t k).daily_count = k from rfl,
      show (scenarioRow i a t k).hourly_timestamps = List.replicate k t from rfl,
      prune_replicate, List.length_replicate]
  rw [if_neg (by omega), if_neg (by omega)]

lemma can_scenario_full (lm : LimitsMap) (i : Nat) (a : String) (t : Nat) (m : Nat)
    (hd : m + 1 < (lm.get_limits a).daily)
    (hh : (lm.get_limits a).hourly ≤ m + 1) :
    can_request lm i a t (rateScenarioStore i a t (m + 1))
      = some ((false, 3600), [scenarioRow i a t (m + 1)]) := by
  unfold can_request
  rw [gocr_scenario]
  show (if (lm.get_limits a).daily ≤ (scenarioRow i a t (m + 1)).daily_count then _
    else if (lm.get_limits a).hourly ≤
        (prune_hourly_timestamps t
          (scenarioRow i a t (m + 1)).hourly_timestamps).length then _
    else _) = _
  rw [show (scenarioRow i a t (m + 1)).daily_count = m + 1 from rfl,
      show (scenarioRow i a t (m + 1)).hourly_timestamps
        = List.replicate (m + 1) t from rfl,
      prune_replicate, List.length_replicate]
  rw [if_neg (by omega), if_pos (by omega)]
  rw [List.replicate_succ]
  simp

lemma record_scenario (i : Nat) (a : String) (t : Nat) (k : Nat) :
    record_request i a t [scenarioRow i a t k] = [scenarioRow i a t (k + 1)] := by
  have hmatch : rowKeyMatches i a (dayOf t) (scenarioRow i a t k) = true := by
    simp [rowKeyMatches, scenarioRow]
  have hgo : get_or_create_record i a t [scenarioRow i a t k]
      = (scenarioRow i a t k, [scenarioRow i a t k]) := by
    unfold get_or_create_record
    rw [show ([scenarioRow i a t k] : RateStore).find? (rowKeyMatches i a (dayOf t))
        = some (scenarioRow i a t k) from by simp [List.find?, hmatch]]
  unfold record_request
  rw [hgo]
  show updateRow i a (dayOf t) _ [scenarioRow i a t k] = _
  unfold updateRow
  rw [if_pos hmatch]
  show ({ scenarioRow i a t k with
      hourly_timestamps :=
        prune_hourly_timestamps t (scenarioRow i a t k).hourly_timestamps ++ [t],
      daily_count := (scenarioRow i a t k).daily_count + 1,
      last_request_at := some t } : RateLimitRow) :: [] = _
  simp only [scenarioRow, prune_replicate]
  rw [List.replicate_succ' k t]
  simp

lemma runRate_cons_someTrue {lm : LimitsMap} {st st' : RateStore} {i : Nat}
    {a : String} {now w : Nat} {ops : List RateOp}
    (h : can_request lm i a now st = some ((true, w), st')) :
    runRate lm st (RateOp.checkedUse i a now :: ops)
      = runRate lm (record_request i a now st') ops := by
  simp [runRate, h]

lemma ratePairs_run (lm : LimitsMap) (i : Nat) (a : String) (t : Nat) :
    ∀ n k, k + n ≤ (lm.get_limits a).hourly → k + n ≤ (lm.get_limits a).daily →
      runRate lm (rateScenarioStore i a t k)
          (List.replicate n (RateOp.checkedUse i a t))
        = some (rateScenarioStore i a t (k + n)) := by
  intro n
  induction n with
  | zero => intro k _ _; simp [runRate]
  | succ n ih =>
      intro k hk hd
      rw [List.replicate_succ]
      rw [runRate_cons_someTrue (can_scenario lm i a t k (by omega) (by omega))]
      rw [record_scenario]
      rw [show ([scenarioRow i a t (k + 1)] : RateStore)
          = rateScenarioStore i a t (k + 1) from by simp [rateScenarioStore]]
      have hrun := ih (k + 1) (by omega) (by omega)
      rw [show k + 1 + n = k + (n + 1) by omega] at hrun
      exact hrun

/-- C6: with the daily count below the daily limit, `can_request` answers
`(false, oldest + 3600 − now)` (non-negative by ℕ-truncation, exactly the
code's `max(0, ·)`) when at least `hourly_limit` timestamps survive pruning,
and `(true, 0)` when fewer do; and from an empty store, `hourly_limit`
disciplined check-then-record pairs at one instant all succeed while the
next `can_request` answers `(false, 3600)` with `3600 ∈ [0, 3600]`. -/
theorem can_request_hourly_boundary (lm : LimitsMap) (i : Nat) (a : String) :
    (∀ now st,
        (get_or_create_record i a now st).1.daily_count < (lm.get_limits a).daily →
        (∀ o rest,
            prune_hourly_timestamps now
                (get_or_create_record i a now st).1.hourly_timestamps = o :: rest →
            (lm.get_limits a).hourly ≤ (o :: rest).length →
            can_request lm i a now st
              = some ((false, o + 3600 - now), (get_or_create_record i a now st).2)) ∧
        ((prune_hourly_timestamps now
              (get_or_create_record i a now st).1.hourly_timestamps).length
            < (lm.get_limits a).hourly →
          can_request lm i a now st
            = some ((true, 0), (get_or_create_record i a now st).2))) ∧
    (∀ t, 0 < (lm.get_limits a).hourly →
        (lm.get_limits a).hourly < (lm.get_limits a).daily →
        ratePairs lm i a t (lm.get_limits a).hourly
            = some (rateScenarioStore i a t (lm.get_limits a).hourly) ∧
        can_request lm i a t (rateScenarioStore i a t (lm.get_limits a).hourly)
            = some ((false, 3600),
                [scenarioRow i a t (lm.get_limits a).hourly]) ∧
        0 ≤ 3600 ∧ 3600 ≤ 3600) := by
  constructor
  · intro now st hd
    constructor
    · intro o rest hp hlen
      unfold can_request
      rw [if_neg (by omega), hp, if_pos (by simpa using hlen)]
    · intro hlen
      unfold can_request
      rw [if_neg (by omega), if_neg (by omega)]
  · intro t hh hd
    obtain ⟨m, hm⟩ : ∃ m, (lm.get_limits a).hourly = m + 1 :=
      ⟨(lm.get_limits a).hourly - 1, by omega⟩
    refine ⟨?_, ?_, by omega, by omega⟩
    · unfold ratePairs
      have := ratePairs_run lm i a t (lm.get_limits a).hourly 0 (by omega) (by omega)
      simpa [rateScenarioStore] using this
    · rw [hm]
      exact can_scenario_full lm i a t m (by omega) (by omega)

/-- Demo limits for the C6 witness: hourly 2, daily 4 for action `ping`. -/
def lmC6 : LimitsMap := { entries := [("ping", ⟨2, 4⟩)], dflt := ⟨60, 300⟩ }

/-- Witness for C6: two disciplined pairs at instant 100 succeed, the next
`can_request` answers `(false, 3600)`. -/
theorem can_request_hourly_boundary_witness :
    ratePairs lmC6 9 "ping" 100 2 = some (rateScenarioStore 9 "ping" 100 2) ∧
    can_request lmC6 9 "ping" 100 (rateScenarioStore 9 "ping" 100 2)
      = some ((false, 3600), [scenarioRow 9 "ping" 100 2]) := by
  have h := (can_request_hourly_boundary lmC6 9 "ping").2 100 (by decide) (by decide)
  exact ⟨by simpa using h.1, by simpa using h.2.1⟩

/-! ### C7 / C10: encrypted secrets (`secrets.py`) -/

/-- A Fernet token. -/
structure FernetToken where
  keyId : Nat
  payload : String
  tag : Nat × String
deriving DecidableEq, Repr

/-- Modelled from the spec: the `cryptography.fernet` cipher is a third-party
black box; the spec requires "symmetric authenticated encryption" that must
"detect tampering and reject modified ciphertexts".  It is idealised as
encrypt-then-MAC with an unforgeable tag. -/
def fernetMac (key : Nat) (payload : String) : Nat × String := (key, payload)

/-- Modelled from the spec: `Fernet.encrypt` under the idealised cipher. -/
def fernetEncrypt (key : Nat) (value : String) : FernetToken :=
  { keyId := key, payload := value, tag := fernetMac key value }

/-- Modelled from the spec: `Fernet.decrypt` — a token decrypts under `key`
only when its key id matches and its tag is the MAC of its payload under
`key`; otherwise InvalidToken. -/
def fernetDecrypt (key : Nat) (t : FernetToken) : Option String :=
  if t.keyId = key ∧ t.tag = fernetMac key t.payload then some t.payload else none

/-- The tamper error text of `secrets.py:41`. -/
def invalidTokenMsg : String := "Invalid encryption key or corrupted data"

/-- `SecretsService.encrypt` (`secrets.py:32-34`). -/
def SecretsService.encrypt (masterKey : Nat) (value : String) : FernetToken :=
  fernetEncrypt masterKey value

/-- `SecretsService.decrypt` (`secrets.py:36-41`): InvalidToken is re-raised
as `ValueError("Invalid encryption key or corrupted data")`. -/
def SecretsService.decrypt (masterKey : Nat) (t : FernetToken) :
    Except String String :=
  match fernetDecrypt masterKey t with
  | some v => Except.ok v
  | none => Except.error invalidTokenMsg

/-- C7: decrypting the encryption of any value returns the value exactly;
decrypting a token whose payload or tag has been modified, or decrypting
under a different key, yields the distinct tamper error
"Invalid encryption key or corrupted data" instead of a value. -/
theorem encrypt_decrypt_roundtrip_tamper (k k2 : Nat) (x p : String)
    (tg : Nat × String) :
    SecretsService.decrypt k (SecretsService.encrypt k x) = Except.ok x ∧
    (p ≠ x →
      SecretsService.decrypt k { SecretsService.encrypt k x with payload := p }
        = Except.error invalidTokenMsg) ∧
    (tg ≠ fernetMac k x →
      SecretsService.decrypt k { SecretsService.encrypt k x with tag := tg }
        = Except.error invalidTokenMsg) ∧
    (k2 ≠ k →
      SecretsService.decrypt k2 (SecretsService.encrypt k x)
        = Except.error invalidTokenMsg) := by
  refine ⟨?_, ?_, ?_, ?_⟩
  · simp [SecretsService.decrypt, SecretsService.encrypt, fernetDecrypt, fernetEncrypt]
  · intro hp
    have hnone : fernetDecrypt k { SecretsService.encrypt k x with payload := p }
        = none := by
      unfold fernetDecrypt SecretsService.encrypt fernetEncrypt fernetMac
      rw [if_neg]
      rintro ⟨-, h2⟩
      have hxp : x = p := by simpa using h2
      exact hp hxp.symm
    unfold SecretsService.decrypt
    rw [hnone]
  · intro ht
    have hnone : fernetDecrypt k { SecretsService.encrypt k x with tag := tg }
        = none := by
      unfold fernetDecrypt SecretsService.encrypt fernetEncrypt
      rw [if_neg]
      rintro ⟨-, h2⟩
      have htg : tg = fernetMac k x := by simpa using h2
      exact ht htg
    unfold SecretsService.decrypt
    rw [hnone]
  · intro hk
    have hnone : fernetDecrypt k2 (SecretsService.encrypt k x) = none := by
      unfold fernetDecrypt SecretsService.encrypt fernetEncrypt
      rw [if_neg]
      rintro ⟨h1, -⟩
      have hkk : k = k2 := by simpa using h1
      exact hk hkk.symm
    unfold SecretsService.decrypt
    rw [hnone]

/-- Witness for C7 at concrete keys and values. -/
theorem encrypt_decrypt_roundtrip_tamper_witness :
    SecretsService.decrypt 0 (SecretsService.encrypt 0 "a") = Except.ok "a" ∧
    SecretsService.decrypt 0 { SecretsService.encrypt 0 "a" with payload := "b" }
      = Except.error invalidTokenMsg ∧
    SecretsService.decrypt 0 { SecretsService.encrypt 0 "a" with tag := (0, "b") }
      = Except.error invalidTokenMsg ∧
    SecretsService.decrypt 1 (SecretsService.encrypt 0 "a")
      = Except.error invalidTokenMsg := by
  have h := encrypt_decrypt_roundtrip_tamper 0 1 "a" "b" (0, "b")
  exact ⟨h.1, h.2.1 (by decide), h.2.2.1 (by decide), h.2.2.2 (by decide)⟩

/-- `models.SecretScope`. -/
inductive SecretScope
  | PLATFORM
  | USER
deriving DecidableEq, Repr

/-- A row of the `secrets` table (`models.Secret`). -/
structure Secret where
  key : String
  scope : SecretScope
  user_id : Option Nat := none
  encrypted_value : FernetToken
  expires_at : Option Nat := none
deriving DecidableEq, Repr

/-- Python truthiness of the optional integer `user_id` (`if user_id:`). -/
def pythonTruthy : Option Nat → Bool
  | none => false
  | some n => n != 0

/-- `secret.expires_at and secret.expires_at < datetime.utcnow()`. -/
def isExpired (now : Nat) (s : Secret) : Bool :=
  match s.expires_at with
  | some e => decide (e < now)
  | none => false

/-- The body shared by both lookup branches of `SecretsService.get`:
an expired secret reads as absent (without falling through), otherwise the
stored ciphertext is decrypted (which can raise the tamper error). -/
def readSecret (masterKey : Nat) (now : Nat) (s : Secret) :
    Except String (Option String) :=
  if isExpired now s then Except.ok none
  else (SecretsService.decrypt masterKey s.encrypted_value).map some

/-- Filter of the user-scope query in `secrets.py:51-55`. -/
def userPred (key : String) (uid : Option Nat) (s : Secret) : Bool :=
  decide (s.key = key ∧ s.scope = SecretScope.USER ∧ s.user_id = uid)

/-- Filter of the platform-scope query in `secrets.py:62-65`. -/
def platformPred (key : String) (s : Secret) : Bool :=
  decide (s.key = key ∧ s.scope = SecretScope.PLATFORM)

/-- `SecretsService.get` (`secrets.py:43-71`): user scope first when
`user_id` is truthy, then platform scope; absent key reads as `None`. -/
def SecretsService.get (masterKey : Nat) (store : List Secret) (now : Nat)
    (key : String) (user_id : Option Nat) : Except String (Option String) :=
  if pythonTruthy user_id then
    match store.find? (userPred key user_id) with
    | some s => readSecret masterKey now s
    | none =>
        match store.find? (platformPred key) with
        | some s => readSecret masterKey now s
        | none => Except.ok none
  else
    match store.find? (platformPred key) with
    | some s => readSecret masterKey now s
    | none => Except.ok none

/-- Python dict assignment `result[key] = value`. -/
def dictInsert (m : List (String × String)) (k v : String) :
    List (String × String) :=
  if m.any (fun p => p.1 == k) then
    m.map (fun p => if p.1 == k then (k, v) else p)
  else m ++ [(k, v)]

/-- The loop of `SecretsService.get_for_task` (`secrets.py:163-173`):
`if value:` keeps only truthy values, so `None` and `""` are both skipped. -/
def get_for_task_loop (masterKey : Nat) (store : List Secret) (now : Nat)
    (user_id : Option Nat) (keys : List String) (acc : List (String × String)) :
    Except String (List (String × String)) :=
  match keys with
  | [] => Except.ok acc
  | k :: ks =>
      match SecretsService.get masterKey store now k user_id with
      | Except.error e => Except.error e
      | Except.ok none => get_for_task_loop masterKey store now user_id ks acc
      | Except.ok (some v) =>
          if v = "" then get_for_task_loop masterKey store now user_id ks acc
          else get_for_task_loop masterKey store now user_id ks (dictInsert acc k v)

/-- `SecretsService.get_for_task` (`secrets.py:163-173`). -/
def SecretsService.get_for_task (masterKey : Nat) (store : List Secret) (now : Nat)
    (keys : List String) (user_id : Option Nat) :
    Except String (List (String × String)) :=
  get_for_task_loop masterKey store now user_id keys []

lemma dictInsert_mem (acc : List (String × String)) (k0 v0 : String)
    (hfun : ∀ w, (k0, w) ∈ acc → w = v0) (k v : String) :
    ((k, v) ∈ dictInsert acc k0 v0) ↔ ((k, v) ∈ acc ∨ (k = k0 ∧ v = v0)) := by
  unfold dictInsert
  by_cases hin : acc.any (fun p => p.1 == k0)
  · rw [if_pos hin]
    constructor
    · intro hm
      rcases List.mem_map.mp hm with ⟨⟨pk, pv⟩, hp, heq⟩
      by_cases hb : pk = k0
      · rw [show (if ((pk, pv).1 == k0) then (k0, v0) else (pk, pv)) = (k0, v0)
            from by simp [hb]] at heq
        right
        exact ⟨(Prod.mk.injEq _ _ _ _ ▸ heq.symm).1, (Prod.mk.injEq _ _ _ _ ▸ heq.symm).2⟩
      · rw [show (if ((pk, pv).1 == k0) then (k0, v0) else (pk, pv)) = (pk, pv)
            from by simp [hb]] at heq
        left
        exact heq ▸ hp
    · intro hm
      rcases hm with hm | ⟨rfl, rfl⟩
      · apply List.mem_map.mpr
        refine ⟨(k, v), hm, ?_⟩
        by_cases hb : k = k0
        · have hv : v = v0 := hfun v (hb ▸ hm)
          simp [hb, hv]
        · simp [hb]
      · rcases List.any_eq_true.mp hin with ⟨⟨pk, pv⟩, hp, hb⟩
        apply List.mem_map.mpr
        refine ⟨(pk, pv), hp, ?_⟩
        simp only at hb
        simp [hb]
  · rw [if_neg hin]
    rw [List.mem_append]
    simp [Prod.ext_iff]

lemma gft_loop_mem (masterKey : Nat) (store : List Secret) (now : Nat)
    (uid : Option Nat) (keys : List String) :
    ∀ (processed : List String) (acc : List (String × String))
      (m : List (String × String)),
      (∀ k v, ((k, v) ∈ acc ↔ (k ∈ processed ∧
          SecretsService.get masterKey store now k uid = Except.ok (some v) ∧
          v ≠ ""))) →
      get_for_task_loop masterKey store now uid keys acc = Except.ok m →
      ∀ k v, ((k, v) ∈ m ↔ ((k ∈ processed ∨ k ∈ keys) ∧
          SecretsService.get masterKey store now k uid = Except.ok (some v) ∧
          v ≠ "")) := by
  induction keys with
  | nil =>
      intro processed acc m hacc h k v
      have hm : acc = m := by simpa [get_for_task_loop] using h
      rw [← hm, hacc k v]
      simp
  | cons k0 ks ih =>
      intro processed acc m hacc h k v
      rw [show get_for_task_loop masterKey store now uid (k0 :: ks) acc
          = match SecretsService.get masterKey store now k0 uid with
            | Except.error e => Except.error e
            | Except.ok none => get_for_task_loop masterKey store now uid ks acc
            | Except.ok (some w) =>
                if w = "" then get_for_task_loop masterKey store now uid ks acc
                else get_for_task_loop masterKey store now uid ks (dictInsert acc k0 w)
          from rfl] at h
      cases hg : SecretsService.get masterKey store now k0 uid with
      | error e => rw [hg] at h; exact absurd h (by simp)
      | ok v0 =>
          rw [hg] at h
          cases v0 with
          | none =>
              have hacc' : ∀ k v, ((k, v) ∈ acc ↔ (k ∈ k0 :: processed ∧
                  SecretsService.get masterKey store now k uid
                    = Except.ok (some v) ∧ v ≠ "")) := by
                intro k v
                rw [hacc k v]
                constructor
                · rintro ⟨hp, hrest⟩
                  exact ⟨List.mem_cons_of_mem _ hp, hrest⟩
                · rintro ⟨hp, hget, hne⟩
                  rcases List.mem_cons.mp hp with heq | hp
                  · rw [heq, hg] at hget
                    exact absurd hget (by simp)
                  · exact ⟨hp, hget, hne⟩
              rw [ih (k0 :: processed) acc m hacc' h k v]
              simp only [List.mem_cons]
              tauto
          | some w =>
              replace h : (if w = "" then get_for_task_loop masterKey store now uid ks acc
                  else get_for_task_loop masterKey store now uid ks (dictInsert acc k0 w))
                  = Except.ok m := h
              by_cases hw : w = ""
              · rw [if_pos hw] at h
                have hacc' : ∀ k v, ((k, v) ∈ acc ↔ (k ∈ k0 :: processed ∧
                    SecretsService.get masterKey store now k uid
                      = Except.ok (some v) ∧ v ≠ "")) := by
                  intro k v
                  rw [hacc k v]
                  constructor
                  · rintro ⟨hp, hrest⟩
                    exact ⟨List.mem_cons_of_mem _ hp, hrest⟩
                  · rintro ⟨hp, hget, hne⟩
                    rcases List.mem_cons.mp hp with heq | hp
                    · rw [heq, hg] at hget
                      have hvw : w = v := by simpa using hget
                      exact absurd (hvw.symm.trans hw) hne
                    · exact ⟨hp, hget, hne⟩
                rw [ih (k0 :: processed) acc m hacc' h k v]
                simp only [List.mem_cons]
                tauto
              · rw [if_neg hw] at h
                have hfun : ∀ u, (k0, u) ∈ acc → u = w := by
                  intro u hu
                  have := ((hacc k0 u).mp hu).2.1
                  rw [hg] at this
                  simpa using this.symm
                have hacc' : ∀ k v, ((k, v) ∈ dictInsert acc k0 w ↔
                    (k ∈ k0 :: processed ∧
                      SecretsService.get masterKey store now k uid
                        = Except.ok (some v) ∧ v ≠ "")) := by
                  intro k v
                  rw [dictInsert_mem acc k0 w hfun k v, hacc k v]
                  constructor
                  · rintro (⟨hp, hrest⟩ | ⟨rfl, rfl⟩)
                    · exact ⟨List.mem_cons_of_mem _ hp, hrest⟩
                    · exact ⟨List.mem_cons_self _ _, hg, hw⟩
                  · rintro ⟨hp, hget, hne⟩
                    rcases List.mem_cons.mp hp with heq | hp
                    · right
                      rw [heq, hg] at hget
                      exact ⟨heq, by simpa using hget.symm⟩
                    · left; exact ⟨hp, hget, hne⟩
                rw [ih (k0 :: processed) (dictInsert acc k0 w) m hacc' h k v]
                simp only [List.mem_cons]
                tauto

/-- C10: `get_for_task` returns exactly the requested keys whose lookup
succeeds with a non-empty decrypted value: keys with no stored secret and
keys whose stored secret decrypts to `""` are both omitted (the `if value:`
truthiness test), so an empty-string secret is indistinguishable in the
result from a missing one. -/
theorem get_for_task_omits_empty (masterKey : Nat) (store : List Secret)
    (now : Nat) (keys : List String) (uid : Option Nat)
    (m : List (String × String))
    (h : SecretsService.get_for_task masterKey store now keys uid = Except.ok m) :
    ∀ k v, ((k, v) ∈ m ↔ (k ∈ keys ∧
        SecretsService.get masterKey store now k uid = Except.ok (some v) ∧
        v ≠ "")) := by
  intro k v
  have := gft_loop_mem masterKey store now uid keys [] [] m (by simp) h k v
  simpa using this

/-- Demo secret store for the C10 witness: key `A` decrypts to `"va"`, key
`B` decrypts to `""`, key `C` is absent. -/
def c10store : List Secret :=
  [{ key := "A", scope := SecretScope.PLATFORM,
     encrypted_value := fernetEncrypt 0 "va" },
   { key := "B", scope := SecretScope.PLATFORM,
     encrypted_value := fernetEncrypt 0 "" }]

/-- Witness for C10: on the demo store, `A` is present in the result and `B`
(empty value) is characterised exactly like the missing `C`. -/
theorem get_for_task_omits_empty_witness :
    (("A", "va") ∈ [("A", "va")] ↔ ("A" ∈ ["A", "B", "C"] ∧
        SecretsService.get 0 c10store 0 "A" none = Except.ok (some "va") ∧
        "va" ≠ "")) ∧
    (("B", "") ∈ [("A", "va")] ↔ ("B" ∈ ["A", "B", "C"] ∧
        SecretsService.get 0 c10store 0 "B" none = Except.ok (some "") ∧
        ("" : String) ≠ "")) := by
  have h := get_for_task_omits_empty 0 c10store 0 ["A", "B", "C"] none
    [("A", "va")] (by rfl)
  exact ⟨h "A" "va", h "B" ""⟩

/-! ### C8: chat-linked agent execution (`executors/agent.py`, `worker.py`) -/

/-- A content block of an SDK assistant message. -/
inductive ContentBlock
  | text (s : String)
  | tool_use (name : String) (input : String)
deriving DecidableEq, Repr

/-- A message of the SDK's lazy stream: assistant turns, the result message
(with optional usage), and other shapes the loop ignores. -/
inductive SDKMessage
  | assistant (content : List ContentBlock)
  | result (usage : Option (Nat × Nat))
  | other
deriving DecidableEq, Repr

/-- The dict `execute_agent` returns. -/
structure AgentResult where
  success : Bool
  output : String := ""
  input_tokens : Nat := 0
  output_tokens : Nat := 0
  tool_count : Nat := 0
  error : Option String := none
deriving DecidableEq, Repr

/-- The loop state of `execute_agent` (`agent.py:90-94`). -/
structure AgentAcc where
  response_text : String
  input_tokens : Nat
  output_tokens : Nat
  tool_count : Nat
  turn_count : Nat
deriving DecidableEq, Repr

/-- The initial loop state. -/
def agentAcc0 : AgentAcc := ⟨"", 0, 0, 0, 0⟩

/-- One content block of an assistant message (`agent.py:108-133`): text is
appended to the response buffer, tool_use increments the tool counter. -/
def processBlock (acc : AgentAcc) (b : ContentBlock) : AgentAcc :=
  match b with
  | ContentBlock.text s => { acc with response_text := acc.response_text ++ s }
  | ContentBlock.tool_use _ _ => { acc with tool_count := acc.tool_count + 1 }

/-- One message of the stream (`agent.py:96-137`): a result message with
usage overwrites the token counts; an assistant message bumps the turn
counter and folds its blocks; others are skipped.  (Event emission is
elided: the claims here concern the returned payload and the chat log.) -/
def processMessage (acc : AgentAcc) (m : SDKMessage) : AgentAcc :=
  match m with
  | SDKMessage.result (some (i, o)) => { acc with input_tokens := i, output_tokens := o }
  | SDKMessage.result none => acc
  | SDKMessage.assistant blocks =>
      blocks.foldl processBlock { acc with turn_count := acc.turn_count + 1 }
  | SDKMessage.other => acc

/-- `execute_agent` (`agent.py:11-159`): an empty/absent prompt fails with
"No prompt provided"; an exception inside the stream yields
`{success: false, error}`; otherwise the fold over the stream yields
`{success: true, output, tokens, tool_count}`. -/
def execute_agent (task : Task) (stream : List SDKMessage) (exc : Option String) :
    AgentResult :=
  match task.prompt with
  | none => { success := false, error := some "No prompt provided" }
  | some p =>
      if p = "" then { success := false, error := some "No prompt provided" }
      else
        match exc with
        | some e => { success := false, error := some e }
        | none =>
            { success := true,
              output := (stream.foldl processMessage agentAcc0).response_text,
              input_tokens := (stream.foldl processMessage agentAcc0).input_tokens,
              output_tokens := (stream.foldl processMessage agentAcc0).output_tokens,
              tool_count := (stream.foldl processMessage agentAcc0).tool_count }

/-- A row of the `chats` table, with the fields the worker reads. -/
structure ChatRow where
  id : Nat
  tenant : String := ""
  system_prompt : String := ""
  workspace : Option String := none
  allowed_tools : List String := []
  max_turns : Nat := 50
deriving DecidableEq, Repr

/-- `ChatManager.get_chat` as the worker uses it (primary-key lookup;
`get_chat(None)` finds nothing). -/
def get_chat (chats : List ChatRow) (cid : Option Nat) : Option ChatRow :=
  match cid with
  | none => none
  | some c => chats.find? (fun ch => ch.id == c)

/-- `Worker._execute_chat_agent` (`worker.py:76-113`): resolve the chat,
run the agent turn, and only on success append the user message (content =
task prompt) followed by the assistant message (content = response buffer,
with the result's token counts) through the sequence-assigning
`add_message`. -/
def Worker.execute_chat_agent (chats : List ChatRow) (msgs : List Message)
    (task : Task) (stream : List SDKMessage) (exc : Option String) :
    AgentResult × List Message :=
  match get_chat chats task.chat_id with
  | none => ({ success := false, error := some "Chat not found" }, msgs)
  | some _chat =>
      if (execute_agent task stream exc).success then
        (execute_agent task stream exc,
          ChatManager.add_message (task.chat_id.getD 0) MessageRole.assistant
            (execute_agent task stream exc).output
            (execute_agent task stream exc).input_tokens
            (execute_agent task stream exc).output_tokens
            (ChatManager.add_message (task.chat_id.getD 0) MessageRole.user
              (task.prompt.getD "") 0 0 msgs))
      else (execute_agent task stream exc, msgs)

lemma execute_chat_agent_found {chats : List ChatRow} {task : Task}
    {chat : ChatRow} (hfind : get_chat chats task.chat_id = some chat)
    (msgs : List Message) (stream : List SDKMessage) (exc : Option String) :
    Worker.execute_chat_agent chats msgs task stream exc
      = if (execute_agent task stream exc).success then
          (execute_agent task stream exc,
            ChatManager.add_message (task.chat_id.getD 0) MessageRole.assistant
              (execute_agent task stream exc).output
              (execute_agent task stream exc).input_tokens
              (execute_agent task stream exc).output_tokens
              (ChatManager.add_message (task.chat_id.getD 0) MessageRole.user
                (task.prompt.getD "") 0 0 msgs))
        else (execute_agent task stream exc, msgs) := by
  unfold Worker.execute_chat_agent
  rw [hfind]

lemma maxSeq_append (cid : Nat) (msgs : List Message) (m : Message)
    (hm : m.chat_id = cid) :
    maxSeq cid (msgs ++ [m]) = max (maxSeq cid msgs) m.sequence := by
  unfold maxSeq
  rw [List.filter_append, List.map_append, List.foldl_append]
  simp [hm]

/-- C8: for a chat-linked agent task (existing chat, non-empty prompt): on a
successful turn exactly two messages are appended — first a user message
whose content is the task prompt, then an assistant message whose content is
the full accumulated response text with the result's token counts, both
through the sequence-assigning `add_message`; on any exception inside the
stream the result is `{success: false, error}` and no messages are
appended. -/
theorem chat_agent_messages (chats : List ChatRow) (msgs : List Message)
    (task : Task) (stream : List SDKMessage) (cid : Nat) (chat : ChatRow)
    (p : String) (hc : task.chat_id = some cid)
    (hfind : get_chat chats task.chat_id = some chat)
    (hp : task.prompt = some p) (hne : p ≠ "") :
    Worker.execute_chat_agent chats msgs task stream none
        = ({ success := true,
             output := (stream.foldl processMessage agentAcc0).response_text,
             input_tokens := (stream.foldl processMessage agentAcc0).input_tokens,
             output_tokens := (stream.foldl processMessage agentAcc0).output_tokens,
             tool_count := (stream.foldl processMessage agentAcc0).tool_count },
           msgs ++
            [{ id := msgs.length + 1, chat_id := cid, role := MessageRole.user,
               content := p, sequence := maxSeq cid msgs + 1 },
             { id := msgs.length + 2, chat_id := cid, role := MessageRole.assistant,
               content := (stream.foldl processMessage agentAcc0).response_text,
               sequence := maxSeq cid msgs + 2,
               tokens_input := (stream.foldl processMessage agentAcc0).input_tokens,
               tokens_output := (stream.foldl processMessage agentAcc0).output_tokens }]) ∧
    ∀ e, Worker.execute_chat_agent chats msgs task stream (some e)
        = ({ success := false, error := some e }, msgs) := by
  have hexecS : execute_agent task stream none
      = { success := true,
          output := (stream.foldl processMessage agentAcc0).response_text,
          input_tokens := (stream.foldl processMessage agentAcc0).input_tokens,
          output_tokens := (stream.foldl processMessage agentAcc0).output_tokens,
          tool_count := (stream.foldl processMessage agentAcc0).tool_count } := by
    unfold execute_agent
    rw [hp]
    show (if p = "" then _ else _) = _
    rw [if_neg hne]
  have hexecF : ∀ e, execute_agent task stream (some e)
      = { success := false, error := some e } := by
    intro e
    unfold execute_agent
    rw [hp]
    show (if p = "" then _ else _) = _
    rw [if_neg hne]
  constructor
  · rw [execute_chat_agent_found hfind msgs stream none, hexecS, if_pos rfl]
    rw [hc, hp]
    simp only [Option.getD_some, ChatManager.add_message]
    rw [maxSeq_append cid msgs _ rfl]
    simp [List.append_assoc, Message.mk.injEq,
      Nat.max_eq_right (Nat.le_succ (maxSeq cid msgs))]
  · intro e
    rw [execute_chat_agent_found hfind msgs stream (some e), hexecF e,
      if_neg (by simp)]

/-- Demo chat store for the C8 witness. -/
def c8chats : List ChatRow := [{ id := 3 }]

/-- Demo chat-linked agent task for the C8 witness. -/
def c8task : Task :=
  { id := 10, task_type := "agent", status := TaskStatus.running,
    prompt := some "hi", chat_id := some 3, created_at := 0 }

/-- Demo SDK stream for the C8 witness: text, a tool use, more text, then
the result message with usage. -/
def c8stream : List SDKMessage :=
  [SDKMessage.assistant [ContentBlock.text "Hello ", ContentBlock.tool_use "Bash" "ls"],
   SDKMessage.assistant [ContentBlock.text "world"],
   SDKMessage.result (some (5, 7))]

/-- Witness for C8 on the demo chat, task and stream. -/
theorem chat_agent_messages_witness :
    Worker.execute_chat_agent c8chats [] c8task c8stream none
      = ({ success := true, output := "Hello world", input_tokens := 5,
           output_tokens := 7, tool_count := 1 },
         [{ id := 1, chat_id := 3, role := MessageRole.user, content := "hi",
            sequence := 1 },
          { id := 2, chat_id := 3, role := MessageRole.assistant,
            content := "Hello world", sequence := 2, tokens_input := 5,
            tokens_output := 7 }]) ∧
    Worker.execute_chat_agent c8chats [] c8task c8stream (some "boom")
      = ({ success := false, error := some "boom" }, []) := by
  have h := chat_agent_messages c8chats [] c8task c8stream 3 { id := 3 } "hi"
    rfl (by decide) rfl (by decide)
  refine ⟨?_, h.2 "boom"⟩
  rw [h.1]
  decide

/-! ### C2: POST /chats/{chat_id}/messages (`server.py:147-165`) -/

/-- The methods `TaskManager` actually defines (`task_manager.py`); note the
absence of `get_active_task_for_chat`, and that `create` accepts no
`chat_id` keyword. -/
def taskManagerMethods : List String :=
  ["create", "claim", "complete", "fail", "get", "list_tasks",
   "update_session_id", "retry", "cancel"]

/-- Modelled from the spec: `active_for_chat(chat_id)` "returns any task for
the chat whose status is pending or running".  `TaskManager` defines no such
method; this is the contract the handler intends to call. -/
def get_active_task_for_chat (tasks : List Task) (cid : Nat) : Option Task :=
  tasks.find? (fun t => decide (t.chat_id = some cid ∧
    (t.status = TaskStatus.pending ∨ t.status = TaskStatus.running)))

/-- An HTTP outcome of the handler: a success payload with a task id, a
FastAPI HTTPException, or an unhandled Python exception (which FastAPI
surfaces as a 500 response). -/
inductive HttpOutcome
  | success (status : Nat) (task_id : Nat)
  | httpError (status : Nat) (detail : String)
  | pythonError (exc : String)
deriving DecidableEq, Repr

/-- `send_message` (`server.py:147-165`).  After the 404 check the handler
evaluates `task_manager.get_active_task_for_chat(chat_id)`; Python resolves
the attribute at call time, and looking up a method missing from
`taskManagerMethods` raises AttributeError before any task logic runs.  The
intended flow — 409 with the conflicting task id, else create a chat-linked
agent task (prompt = request content, workspace from the chat) and answer
202 — sits under the method-exists guard, modelled from the spec since
`TaskManager.create` also accepts no `chat_id`. -/
def send_message (chats : List ChatRow) (tasks : List Task) (chat_id : Nat)
    (content : String) (now : Nat) : HttpOutcome × List Task :=
  match get_chat chats (some chat_id) with
  | none => (HttpOutcome.httpError 404 "Chat not found", tasks)
  | some chat =>
      if taskManagerMethods.contains "get_active_task_for_chat" then
        match get_active_task_for_chat tasks chat_id with
        | some active =>
            (HttpOutcome.httpError 409
              ("Chat already has active task " ++ toString active.id), tasks)
        | none =>
            (HttpOutcome.success 202 (tasks.length + 1),
              tasks ++ [{ id := tasks.length + 1, task_type := "agent",
                          status := TaskStatus.pending, prompt := some content,
                          workspace := chat.workspace, chat_id := some chat_id,
                          created_at := now }])
      else
        (HttpOutcome.pythonError "AttributeError", tasks)

/-- C2 (code behaviour at the failing input): for every existing chat, the
message-submit handler raises AttributeError — `TaskManager` has no
`get_active_task_for_chat` — so the request yields a 500, never the claimed
409 or 202, and no task is created. -/
theorem send_message_attribute_error (chats : List ChatRow) (tasks : List Task)
    (chat_id : Nat) (content : String) (now : Nat) (chat : ChatRow)
    (hfound : get_chat chats (some chat_id) = some chat) :
    send_message chats tasks chat_id content now
      = (HttpOutcome.pythonError "AttributeError", tasks) := by
  have hmiss : taskManagerMethods.contains "get_active_task_for_chat" = false := by
    decide
  simp [send_message, hfound, hmiss]
  intro hmem
  exact absurd hmem (by decide)

/-- Demo chat store for the C2 witness. -/
def c2chats : List ChatRow := [{ id := 1 }]

/-- Witness for C2's code-behaviour theorem: submitting "ping" to existing
chat 1 with an empty task table raises AttributeError and creates nothing. -/
theorem send_message_attribute_error_witness :
    send_message c2chats [] 1 "ping" 0
      = (HttpOutcome.pythonError "AttributeError", []) :=
  send_message_attribute_error c2chats [] 1 "ping" 0 { id := 1 } (by decide)

end Otomata
